import Mathlib

/-!
Verification of the hydrolox entity/component storage engine.

`CompData` models `src/comp_data.rs` (a type-erased growable column) and
`Comptainer` models `src/framework.rs` (a sparse-set map from entities to
dense slots).  Machine memory is modelled shallowly: the raw buffer is a
list of optionally-initialized slots, panics (failed `assert`, out-of-bounds
indexing, `unwrap` of `None`) are `Except.error`, and undefined behaviour
(writes outside the allocation, writes through a freed pointer) is recorded
in explicit flags on the column state.
-/

namespace Hydrolox

/-- Entities (framework.rs `Entity`): opaque 64-bit ids.  The Rust type wraps
a `NonZeroU64`; zero is unrepresentable there, which the deserialization
model checks explicitly in `entityFromU64`. -/
structure Entity where
  id : Nat
deriving DecidableEq, Repr

/-- Panics: failed `assert` / `assert_eq`, out-of-bounds slice indexing, and
`Option::unwrap` on `None`. -/
inductive Panic where
  | assertFailed
  | indexOutOfBounds
  | unwrapNone
deriving DecidableEq, Repr

/-- `Comptainer<T>` (framework.rs): an `AHashMap<Entity, usize>` from entity
to dense index plus the dense `Vec<T>`.  The hash map is modelled as an
association list whose list order stands for the map's (arbitrary but fixed)
iteration order; `AHashMap` guarantees the keys are distinct. -/
structure Comptainer (α : Type) where
  id_to_pos : List (Entity × Nat)
  comps : List α
deriving DecidableEq, Repr

variable {α : Type}

/-- Association-list lookup, modelling `AHashMap::get`. -/
def assocFind (e : Entity) : List (Entity × Nat) → Option Nat
  | [] => none
  | p :: rest => if p.1 = e then some p.2 else assocFind e rest

/-- `Comptainer::new` / `Default::default` (the `with_capacity` variant only
pre-reserves, which is invisible at this level of abstraction). -/
def Comptainer.empty : Comptainer α := ⟨[], []⟩

/-- `self.id_to_pos.get(&entity)`. -/
def Comptainer.lookup (c : Comptainer α) (e : Entity) : Option Nat :=
  assocFind e c.id_to_pos

/-- `Comptainer::has_component`: `self.id_to_pos.contains_key(&entity)`. -/
def Comptainer.has_component (c : Comptainer α) (e : Entity) : Bool :=
  (c.lookup e).isSome

/-- `Comptainer::len`: `self.id_to_pos.len()`. -/
def Comptainer.clen (c : Comptainer α) : Nat :=
  c.id_to_pos.length

/-- `Comptainer::get`.  Indexing `self.comps[i]` panics when `i` is out of
bounds of the dense vector. -/
def Comptainer.get (c : Comptainer α) (e : Entity) : Except Panic (Option α) :=
  match c.lookup e with
  | none => .ok none
  | some i =>
    match c.comps[i]? with
    | some v => .ok (some v)
    | none => .error .indexOutOfBounds

/-- `Comptainer::add_component`: an occupied entry replaces the stored value
via `mem::replace(&mut self.comps[i], component)` (which panics if the stored
index is out of bounds) and returns the old value; a vacant entry inserts
`entity → self.comps.len()` and then pushes the value. -/
def Comptainer.add_component (c : Comptainer α) (e : Entity) (v : α) :
    Except Panic (Option α × Comptainer α) :=
  match c.lookup e with
  | some i =>
    match c.comps[i]? with
    | some old => .ok (some old, { c with comps := c.comps.set i v })
    | none => .error .indexOutOfBounds
  | none =>
    .ok (none, ⟨c.id_to_pos ++ [(e, c.comps.length)], c.comps ++ [v]⟩)

/-- `Vec::swap_remove` without its bounds check (the caller models the
panic): the last element is moved into slot `i` and the last slot dropped. -/
def vecSwapRemove (l : List α) (i : Nat) : List α :=
  match l.getLast? with
  | some a => (l.set i a).dropLast
  | none => l

/-- Rewrite the first association-list entry whose dense index equals
`target` to map to `newIdx` instead, modelling
`id_to_pos.iter_mut().find(|(_, v)| **v == target)` followed by the write;
`none` models the `.unwrap()` panic when no entry matches. -/
def fixup (target newIdx : Nat) : List (Entity × Nat) → Option (List (Entity × Nat))
  | [] => none
  | p :: rest =>
    if p.2 = target then some ((p.1, newIdx) :: rest)
    else (fixup target newIdx rest).map (p :: ·)

/-- `Comptainer::remove_component`: on a present entity it swap-removes its
dense slot, and if that slot was not the last one it rewrites the map entry
of whichever entity now occupies the old last index.  Note that the source
never erases the removed entity's own `id_to_pos` entry. -/
def Comptainer.remove_component (c : Comptainer α) (e : Entity) :
    Except Panic (Bool × Comptainer α) :=
  match c.lookup e with
  | none => .ok (false, c)
  | some i =>
    if i < c.comps.length then
      let comps' := vecSwapRemove c.comps i
      if i < comps'.length then
        match fixup comps'.length i c.id_to_pos with
        | some m => .ok (true, ⟨m, comps'⟩)
        | none => .error .unwrapNone
      else
        .ok (true, { c with comps := comps' })
    else
      .error .indexOutOfBounds

/-- The dense slots touched by one full pass of `CompIterMut`
(framework.rs `iter_mut`): one per map entry, in map iteration order; slot
`i` yields `&mut *self.comps.as_mut_ptr().add(i)`. -/
def Comptainer.iterMutSlots (c : Comptainer α) : List Nat :=
  c.id_to_pos.map Prod.snd

/-- Invariant: the map's keys are distinct (guaranteed by `AHashMap`). -/
def KeysNodup (c : Comptainer α) : Prop :=
  (c.id_to_pos.map Prod.fst).Nodup

/-- Invariant: distinct entities map to distinct dense indices. -/
def ValsNodup (c : Comptainer α) : Prop :=
  (c.id_to_pos.map Prod.snd).Nodup

/-- Invariant: every mapped dense index is in bounds of the dense vector. -/
def InRange (c : Comptainer α) : Prop :=
  ∀ p ∈ c.id_to_pos, p.2 < c.comps.length

/-- Invariant: the dense vector's length equals the map's entry count. -/
def Dense (c : Comptainer α) : Prop :=
  c.comps.length = c.id_to_pos.length

/-- The data-model invariants of a sparse set. -/
def Inv (c : Comptainer α) : Prop :=
  KeysNodup c ∧ ValsNodup c ∧ InRange c ∧ Dense c

/-- Total version of `add_component`, usable as a plain fold step; it agrees
with `add_component` on every state satisfying the invariants (where the
occupied-entry index is always in bounds). -/
def addPure (c : Comptainer α) (e : Entity) (v : α) : Comptainer α :=
  match c.lookup e with
  | some i => { c with comps := c.comps.set i v }
  | none => ⟨c.id_to_pos ++ [(e, c.comps.length)], c.comps ++ [v]⟩

/-- Fold `add_component` over wire entries starting from a given state. -/
def addFoldFrom (entries : List (Nat × α)) (c : Comptainer α) : Comptainer α :=
  match entries with
  | [] => c
  | p :: rest => addFoldFrom rest (addPure c ⟨p.1⟩ p.2)

/-- The spec's description of deserialization: fold `add_component` over an
empty container in input order. -/
def addFold (entries : List (Nat × α)) : Comptainer α :=
  addFoldFrom entries Comptainer.empty

/-- The last value associated with wire key `k` in the input sequence, if
any: a later occurrence takes precedence over an earlier one. -/
def lastVal (k : Nat) : List (Nat × α) → Option α
  | [] => none
  | p :: rest =>
    match lastVal k rest with
    | some v => some v
    | none => if p.1 = k then some p.2 else none

/-- Deserialization errors distinct from panics. -/
inductive DeError where
  | invalidEntityId
deriving DecidableEq, Repr

/-- `EntityVisitor::visit_u64` (framework.rs): a zero id fails
`NonZeroU64::new` and is turned into an `invalid_value` error. -/
def entityFromU64 (v : Nat) : Except DeError Entity :=
  if v = 0 then .error .invalidEntityId else .ok ⟨v⟩

/-- `ComptainerVisitor::visit_map`: repeatedly read a `(key, value)` entry,
decode the key, and `add_component` it into the container under
construction.  Key-decoding errors and panics propagate. -/
def visit_map (entries : List (Nat × α)) (c : Comptainer α) :
    Except (DeError ⊕ Panic) (Comptainer α) :=
  match entries with
  | [] => .ok c
  | (k, v) :: rest =>
    match entityFromU64 k with
    | .error err => .error (.inl err)
    | .ok e =>
      match c.add_component e v with
      | .error p => .error (.inr p)
      | .ok (_, c') => visit_map rest c'

/-- `Comptainer::deserialize` via `ComptainerVisitor` (the `with_capacity`
size hint only pre-reserves and is invisible at this level). -/
def deserializeComptainer (entries : List (Nat × α)) :
    Except (DeError ⊕ Panic) (Comptainer α) :=
  visit_map entries Comptainer.empty

/-- Runtime type of a stored element: the `TypeId` tag plus `size_of`.  In
Rust the tag determines the size (they come from the same `T`); operations
below take the caller's type as such a pair. -/
structure RustType where
  tag : Nat
  size : Nat
deriving DecidableEq, Repr

/-- `usize::MAX` on a 64-bit target. -/
def USIZE_MAX : Nat := 2 ^ 64 - 1

/-- `CompData` (comp_data.rs): a type-erased growable column.  `data` is the
backing buffer (`none` = null / never allocated; slots hold `none` while
uninitialized).  `allocs` counts fresh-block allocations (`alloc_nonnull`
calls), `dangling` records that `data` still points at a block that has been
deallocated, and `oob` records that a write landed outside the live
allocation — both are undefined behaviour in the source. -/
structure CompData (α : Type) where
  data : Option (List (Option α))
  len : Nat
  cap : Nat
  elem_type : Nat
  elem_size : Nat
  allocs : Nat
  dangling : Bool
  oob : Bool
deriving DecidableEq, Repr

/-- Resize a buffer to `n` slots, keeping the leading contents (what a
successful `realloc` or a fresh-block copy preserves). -/
def resizeBuf (buf : List (Option α)) (n : Nat) : List (Option α) :=
  buf.take n ++ List.replicate (n - buf.length) none

/-- `CompData::with_capacity::<T>(cap)`: zero-size types never allocate and
report unbounded capacity;`cap == 0` defers allocation; otherwise exactly
`cap` slots are allocated. -/
def CompData.with_capacity (α : Type) (t : RustType) (cap : Nat) : CompData α :=
  if t.size = 0 then
    ⟨none, 0, USIZE_MAX, t.tag, t.size, 0, false, false⟩
  else if cap = 0 then
    ⟨none, 0, 0, t.tag, t.size, 0, false, false⟩
  else
    ⟨some (List.replicate cap none), 0, cap, t.tag, t.size, 1, false, false⟩

/-- `CompData::grow`.  `reallocOk` is an oracle for whether `realloc`
succeeds at the current address.  Faithful to the source, the relocation
branch allocates a fresh block, copies the live elements into it and frees
the old block, but never stores the new pointer into `self.data` — so the
stored pointer is left dangling and the copied data is leaked. -/
def CompData.grow (c : CompData α) (reallocOk : Bool) : CompData α :=
  match c.data with
  | some buf =>
    let new_cap := c.cap + c.cap / 2
    if reallocOk then
      { c with data := some (resizeBuf buf new_cap), cap := new_cap }
    else
      { c with cap := new_cap, allocs := c.allocs + 1, dangling := true }
  | none =>
    { c with cap := 8, data := some (List.replicate 8 none), allocs := c.allocs + 1 }

/-- `CompData::push::<T>`: asserts the type tag, grows when the buffer is
missing or full (for positively sized `T`), writes at index `len` through
the stored pointer, then increments `len`.  A write past the buffer or
through a dangling pointer is undefined behaviour, recorded in `oob`. -/
def CompData.push (c : CompData α) (t : RustType) (v : α) (reallocOk : Bool) :
    Except Panic (CompData α) :=
  if c.elem_type ≠ t.tag then .error .assertFailed
  else if 0 < t.size then
    let c' := if c.data.isNone || c.len == c.cap then c.grow reallocOk else c
    match c'.data with
    | some buf =>
      if c'.dangling then
        .ok { c' with oob := true, len := c'.len + 1 }
      else if c'.len < buf.length then
        .ok { c' with data := some (buf.set c'.len (some v)), len := c'.len + 1 }
      else
        .ok { c' with oob := true, len := c'.len + 1 }
    | none => .error .unwrapNone
  else
    .ok { c with len := c.len + 1 }

/-- `CompData::replace::<T>`: asserts the type tag and `i < len`, then swaps
the stored value, returning the old one (`none` stands for reading bytes
that were never initialized, which cannot happen on well-formed states). -/
def CompData.replace (c : CompData α) (t : RustType) (i : Nat) (v : α) :
    Except Panic (Option α × CompData α) :=
  if c.elem_type ≠ t.tag then .error .assertFailed
  else if c.len ≤ i then .error .assertFailed
  else if 0 < t.size then
    match c.data with
    | some buf => .ok ((buf.getD i none), { c with data := some (buf.set i (some v)) })
    | none => .error .unwrapNone
  else
    .ok (some v, c)

/-- `CompData::swap_remove`: asserts `i < len`; for positively sized
elements it drops the element at `i` in place and, unless `i` was the last
live slot, copies the last live element's bytes into slot `i`; finally
decrements `len`. -/
def CompData.swap_remove (c : CompData α) (i : Nat) : Except Panic (CompData α) :=
  if c.len ≤ i then .error .assertFailed
  else
    let new_len := c.len - 1
    if 0 < c.elem_size then
      match c.data with
      | some buf =>
        if i < new_len then
          .ok { c with data := some (buf.set i (buf.getD new_len none)), len := new_len }
        else
          .ok { c with len := new_len }
      | none => .error .unwrapNone
    else
      .ok { c with len := new_len }

/-- `CompData::as_typed_slice::<T>`: asserts the type tag and views the
first `len` slots (an absent buffer yields a dangling-pointer slice, only
ever used with `len == 0` or zero-sized elements). -/
def CompData.as_typed_slice (c : CompData α) (t : RustType) :
    Except Panic (List (Option α)) :=
  if c.elem_type ≠ t.tag then .error .assertFailed
  else
    match c.data with
    | some buf => .ok (buf.take c.len)
    | none => .ok (List.replicate c.len none)

/-- `CompData::as_typed_slice_mut::<T>`: identical shape to
`as_typed_slice`, with a mutable view in the source. -/
def CompData.as_typed_slice_mut (c : CompData α) (t : RustType) :
    Except Panic (List (Option α)) :=
  if c.elem_type ≠ t.tag then .error .assertFailed
  else
    match c.data with
    | some buf => .ok (buf.take c.len)
    | none => .ok (List.replicate c.len none)

/-- Well-formedness of a column state: for positively sized elements a null
buffer implies an empty column.  Every state reachable through the public
operations satisfies this (a first push allocates before writing). -/
def WFData (c : CompData α) : Prop :=
  0 < c.elem_size → c.data = none → c.len = 0

deriving instance DecidableEq for Except

/-- C1: the spec claims `remove_component(e)` returns true and erases `e`'s
own index-map entry, so that `get(e)` is absent and `has_component(e)` is
false afterwards.  The source never erases the map entry: after adding and
then removing entity 1, `remove_component` returns true but
`has_component` still returns true and `get` panics on an out-of-bounds
dense index instead of returning `none`. -/
theorem remove_keeps_map_entry_code_bug :
    (Comptainer.add_component (α := Nat) Comptainer.empty ⟨1⟩ 10).bind
        (fun r => Comptainer.remove_component r.2 ⟨1⟩) =
      .ok (true, (⟨[(⟨1⟩, 0)], []⟩ : Comptainer Nat)) ∧
    Comptainer.has_component (⟨[(⟨1⟩, 0)], []⟩ : Comptainer Nat) ⟨1⟩ = true ∧
    Comptainer.get (⟨[(⟨1⟩, 0)], []⟩ : Comptainer Nat) ⟨1⟩ = .error .indexOutOfBounds := by
  decide

/-- C2: the spec claims that after every sequence of add/remove operations
from empty, `comps.length = id_to_pos.length` and every mapped index is
`< comps.length`.  Because `remove_component` never erases the removed
entity's map entry, adding then removing one entity leaves the dense
vector empty while the map still holds one entry, whose stored index is
out of range. -/
theorem density_invariant_code_bug :
    (Comptainer.add_component (α := Nat) Comptainer.empty ⟨1⟩ 10).bind
        (fun r => Comptainer.remove_component r.2 ⟨1⟩) =
      .ok (true, (⟨[(⟨1⟩, 0)], []⟩ : Comptainer Nat)) ∧
    ¬ Dense (⟨[(⟨1⟩, 0)], []⟩ : Comptainer Nat) ∧
    ¬ InRange (⟨[(⟨1⟩, 0)], []⟩ : Comptainer Nat) := by
  refine ⟨by decide, ?_, ?_⟩
  · unfold Dense
    decide
  · unfold InRange
    decide

/-- C3: the spec claims any two distinct entities present in the map are
mapped to distinct dense indices in every reachable state, so `iter_mut`
touches each dense slot at most once per pass.  After adding entities 1
and 2 and removing entity 1, both entities map to dense slot 0 (the
removed entity's entry survives and the relocated entity is rewritten onto
the same index), and a full `iter_mut` pass yields slot 0 twice. -/
theorem duplicate_dense_index_code_bug :
    (Comptainer.add_component (α := Nat) Comptainer.empty ⟨1⟩ 10).bind
        (fun r => (Comptainer.add_component r.2 ⟨2⟩ 20).bind
          (fun r2 => Comptainer.remove_component r2.2 ⟨1⟩)) =
      .ok (true, (⟨[(⟨1⟩, 0), (⟨2⟩, 0)], [20]⟩ : Comptainer Nat)) ∧
    (⟨1⟩ : Entity) ≠ ⟨2⟩ ∧
    Comptainer.lookup (⟨[(⟨1⟩, 0), (⟨2⟩, 0)], [20]⟩ : Comptainer Nat) ⟨1⟩ = some 0 ∧
    Comptainer.lookup (⟨[(⟨1⟩, 0), (⟨2⟩, 0)], [20]⟩ : Comptainer Nat) ⟨2⟩ = some 0 ∧
    ¬ (Comptainer.iterMutSlots (⟨[(⟨1⟩, 0), (⟨2⟩, 0)], [20]⟩ : Comptainer Nat)).Nodup := by
  refine ⟨by decide, by decide, by decide, by decide, ?_⟩
  unfold Comptainer.iterMutSlots
  decide

/-- C6: the spec claims pushing `N` values into a column created with
capacity `0 < c < N` reads back all pushed values whether growth
reallocates in place or relocates.  The source has two slips: with
capacity 1 the growth formula `cap + cap/2` yields 1 again, so the second
push writes one slot past the 1-slot buffer (the view still holds only the
first value); and when `realloc` fails, the relocation branch copies to a
fresh block and frees the old one but never stores the new pointer into
`self.data`, leaving it dangling for the following write. -/
theorem grow_code_bug :
    ((CompData.with_capacity Nat ⟨1, 4⟩ 1).push ⟨1, 4⟩ 10 true).bind
        (fun c => c.push ⟨1, 4⟩ 20 true) =
      .ok ⟨some [some 10], 2, 1, 1, 4, 1, false, true⟩ ∧
    CompData.as_typed_slice (⟨some [some 10], 2, 1, 1, 4, 1, false, true⟩ : CompData Nat) ⟨1, 4⟩ ≠
      .ok [some 10, some 20] ∧
    ((CompData.with_capacity Nat ⟨1, 4⟩ 2).push ⟨1, 4⟩ 10 true).bind
        (fun c => (c.push ⟨1, 4⟩ 20 true).bind
          (fun c2 => c2.push ⟨1, 4⟩ 30 false)) =
      .ok ⟨some [some 10, some 20], 3, 3, 1, 4, 2, true, true⟩ := by
  decide

/-- C10 counterexample: the claim quantifies over every `Comptainer` state,
but on the (reachable) corrupted state where entities 1 and 2 both map to
dense slot 0, `add_component` of entity 1 overwrites the value observed
through entity 2, so entity 2 does not keep its previous stored value. -/
theorem add_component_frame_counterexample :
    (Comptainer.add_component (α := Nat) Comptainer.empty ⟨1⟩ 10).bind
        (fun r => (Comptainer.add_component r.2 ⟨2⟩ 20).bind
          (fun r2 => Comptainer.remove_component r2.2 ⟨1⟩)) =
      .ok (true, (⟨[(⟨1⟩, 0), (⟨2⟩, 0)], [20]⟩ : Comptainer Nat)) ∧
    (⟨2⟩ : Entity) ≠ ⟨1⟩ ∧
    Comptainer.lookup (⟨[(⟨1⟩, 0), (⟨2⟩, 0)], [20]⟩ : Comptainer Nat) ⟨2⟩ = some 0 ∧
    Comptainer.get (⟨[(⟨1⟩, 0), (⟨2⟩, 0)], [20]⟩ : Comptainer Nat) ⟨2⟩ = .ok (some 20) ∧
    Comptainer.add_component (⟨[(⟨1⟩, 0), (⟨2⟩, 0)], [20]⟩ : Comptainer Nat) ⟨1⟩ 99 =
      .ok (some 20, ⟨[(⟨1⟩, 0), (⟨2⟩, 0)], [99]⟩) ∧
    Comptainer.get (⟨[(⟨1⟩, 0), (⟨2⟩, 0)], [99]⟩ : Comptainer Nat) ⟨2⟩ = .ok (some 99) := by
  decide

theorem assocFind_mem {e : Entity} {v : Nat} {l : List (Entity × Nat)}
    (h : assocFind e l = some v) : (e, v) ∈ l := by
  induction l with
  | nil => simp [assocFind] at h
  | cons p rest ih =>
    rw [assocFind] at h
    by_cases hp : p.1 = e
    · rw [if_pos hp] at h
      injection h with h2
      obtain ⟨p1, p2⟩ := p
      simp only at hp h2
      subst hp
      subst h2
      exact List.mem_cons_self _ _
    · rw [if_neg hp] at h
      exact List.mem_cons_of_mem _ (ih h)

theorem assocFind_eq_some_of_mem {e : Entity} {v : Nat} {l : List (Entity × Nat)}
    (hk : (l.map Prod.fst).Nodup) (h : (e, v) ∈ l) : assocFind e l = some v := by
  induction l with
  | nil => cases h
  | cons p rest ih =>
    rw [assocFind]
    rcases List.mem_cons.1 h with h1 | h1
    · rw [← h1]
      simp
    · have hpe : p.1 ≠ e := by
        intro hcontra
        have : e ∈ rest.map Prod.fst := List.mem_map.2 ⟨(e, v), h1, rfl⟩
        exact (List.nodup_cons.1 (by simpa using hk)).1 (hcontra ▸ this)
      rw [if_neg hpe]
      exact ih (List.nodup_cons.1 (by simpa using hk)).2 h1

theorem assocFind_eq_none {e : Entity} {l : List (Entity × Nat)} :
    assocFind e l = none ↔ ∀ p ∈ l, p.1 ≠ e := by
  induction l with
  | nil => simp [assocFind]
  | cons p rest ih =>
    rw [assocFind]
    by_cases hp : p.1 = e
    · simp [hp]
    · simp [hp, ih]

theorem assocFind_append_self {e : Entity} {n : Nat} {l : List (Entity × Nat)}
    (h : assocFind e l = none) : assocFind e (l ++ [(e, n)]) = some n := by
  induction l with
  | nil => simp [assocFind]
  | cons p rest ih =>
    rw [assocFind] at h
    rw [List.cons_append, assocFind]
    by_cases hp : p.1 = e
    · rw [if_pos hp] at h
      cases h
    · rw [if_neg hp] at h ⊢
      exact ih h

theorem assocFind_append_other {e e₂ : Entity} {n : Nat} {l : List (Entity × Nat)}
    (h : e₂ ≠ e) : assocFind e₂ (l ++ [(e, n)]) = assocFind e₂ l := by
  induction l with
  | nil => simp [assocFind, Ne.symm h]
  | cons p rest ih =>
    rw [List.cons_append, assocFind, assocFind]
    by_cases hp : p.1 = e₂
    · rw [if_pos hp, if_pos hp]
    · rw [if_neg hp, if_neg hp]
      exact ih

theorem vecSwapRemove_length {l : List α} (h : l ≠ []) (i : Nat) :
    (vecSwapRemove l i).length = l.length - 1 := by
  rw [vecSwapRemove]
  split
  · simp
  · rename_i heq
    exact absurd (List.getLast?_eq_none_iff.1 heq) h

theorem vecSwapRemove_getElem_self {l : List α} {i : Nat} (h : i + 1 < l.length) :
    (vecSwapRemove l i)[i]? = l[l.length - 1]? := by
  have hne : l ≠ [] := by
    intro he
    subst he
    simp at h
  rw [vecSwapRemove]
  split
  · rename_i a heq
    rw [List.dropLast_eq_take, List.length_set,
      List.getElem?_take_of_lt (by omega),
      List.getElem?_set_self (by omega), ← List.getLast?_eq_getElem?, heq]
  · rename_i heq
    exact absurd (List.getLast?_eq_none_iff.1 heq) hne

theorem fixup_spec {l : List (Entity × Nat)} {e' : Entity} {target new : Nat}
    (hmem : (e', target) ∈ l)
    (hkeys : (l.map Prod.fst).Nodup)
    (hvals : (l.map Prod.snd).Nodup) :
    ∃ l', fixup target new l = some l' ∧
      l'.map Prod.fst = l.map Prod.fst ∧
      assocFind e' l' = some new ∧
      ∀ e₂, e₂ ≠ e' → assocFind e₂ l' = assocFind e₂ l := by
  induction l with
  | nil => cases hmem
  | cons p rest ih =>
    simp only [List.map_cons, List.nodup_cons] at hkeys hvals
    rw [fixup]
    by_cases hp : p.2 = target
    · have hpe : p = (e', target) := by
        rcases List.mem_cons.1 hmem with h1 | h1
        · exact h1.symm
        · exact absurd (List.mem_map.2 ⟨(e', target), h1, rfl⟩) (hp ▸ hvals.1)
      subst hpe
      refine ⟨(e', new) :: rest, by rw [if_pos hp], by simp, ?_, ?_⟩
      · rw [assocFind, if_pos rfl]
      · intro e₂ hne
        rw [assocFind, assocFind, if_neg (fun hh => hne hh.symm),
          if_neg (fun hh => hne hh.symm)]
    · have hmem' : (e', target) ∈ rest := by
        rcases List.mem_cons.1 hmem with h1 | h1
        · exact absurd (congrArg Prod.snd h1.symm) hp
        · exact h1
      obtain ⟨l'', hfix, hfst, hfind, hframe⟩ := ih hmem' hkeys.2 hvals.2
      refine ⟨p :: l'', by rw [if_neg hp, hfix]; rfl, by simp [hfst], ?_, ?_⟩
      · have hp1 : p.1 ≠ e' := by
          intro hcontra
          exact hkeys.1 (hcontra ▸ List.mem_map.2 ⟨(e', target), hmem', rfl⟩)
        rw [assocFind, if_neg hp1]
        exact hfind
      · intro e₂ hne
        rw [assocFind, assocFind]
        by_cases hp1 : p.1 = e₂
        · rw [if_pos hp1, if_pos hp1]
        · rw [if_neg hp1, if_neg hp1]
          exact hframe e₂ hne

theorem empty_inv : Inv (Comptainer.empty : Comptainer α) := by
  refine ⟨?_, ?_, ?_, ?_⟩ <;>
    simp [Comptainer.empty, KeysNodup, ValsNodup, InRange, Dense]

theorem addPure_inv {c : Comptainer α} (hinv : Inv c) (e : Entity) (v : α) :
    Inv (addPure c e v) := by
  obtain ⟨hk, hv, hr, hd⟩ := hinv
  unfold addPure
  cases hce : c.lookup e with
  | some i =>
    refine ⟨hk, hv, ?_, ?_⟩
    · intro p hp
      simpa using hr p hp
    · unfold Dense at hd ⊢
      simpa using hd
  | none =>
    have hnotin : e ∉ c.id_to_pos.map Prod.fst := by
      intro hcontra
      obtain ⟨p, hp, hp1⟩ := List.mem_map.1 hcontra
      exact (assocFind_eq_none.1 hce p hp) hp1
    have hlennotin : c.comps.length ∉ c.id_to_pos.map Prod.snd := by
      intro hcontra
      obtain ⟨p, hp, hp2⟩ := List.mem_map.1 hcontra
      exact absurd (hp2 ▸ hr p hp) (lt_irrefl _)
    refine ⟨?_, ?_, ?_, ?_⟩
    · unfold KeysNodup
      simp only [List.map_append, List.map_cons, List.map_nil]
      rw [List.nodup_append]
      exact ⟨hk, List.nodup_singleton _, by simpa [List.disjoint_singleton] using hnotin⟩
    · unfold ValsNodup
      simp only [List.map_append, List.map_cons, List.map_nil]
      rw [List.nodup_append]
      exact ⟨hv, List.nodup_singleton _, by simpa [List.disjoint_singleton] using hlennotin⟩
    · intro p hp
      simp only [List.length_append, List.length_cons, List.length_nil]
      rcases List.mem_append.1 hp with h1 | h1
      · exact lt_of_lt_of_le (hr p h1) (by omega)
      · rcases List.mem_singleton.1 h1 with h2
        rw [h2]
        omega
    · unfold Dense at hd ⊢
      simp [hd]

theorem addPure_get_same {c : Comptainer α} (hinv : Inv c) (e : Entity) (v : α) :
    (addPure c e v).get e = .ok (some v) := by
  obtain ⟨hk, hv, hr, hd⟩ := hinv
  unfold addPure
  cases hce : c.lookup e with
  | some i =>
    have hi : i < c.comps.length := hr _ (assocFind_mem hce)
    have hfind : assocFind e c.id_to_pos = some i := hce
    simp [Comptainer.get, Comptainer.lookup, hfind, List.getElem?_set_self hi]
  | none =>
    have hfind : assocFind e c.id_to_pos = none := hce
    simp [Comptainer.get, Comptainer.lookup, assocFind_append_self hfind,
      List.getElem?_concat_length]

theorem addPure_lookup_other {c : Comptainer α} {e e₂ : Entity} (hne : e₂ ≠ e) (v : α) :
    (addPure c e v).lookup e₂ = c.lookup e₂ := by
  unfold addPure
  cases hce : c.lookup e with
  | some i => rfl
  | none => exact assocFind_append_other hne

theorem addPure_get_other {c : Comptainer α} (hinv : Inv c) {e e₂ : Entity}
    (hne : e₂ ≠ e) (v : α) : (addPure c e v).get e₂ = c.get e₂ := by
  obtain ⟨hk, hv, hr, hd⟩ := hinv
  unfold Comptainer.get
  rw [show (addPure c e v).lookup e₂ = c.lookup e₂ from addPure_lookup_other hne v]
  cases hce2 : c.lookup e₂ with
  | none => rfl
  | some j =>
    unfold addPure
    cases hce : c.lookup e with
    | some i =>
      have hij : i ≠ j := by
        intro hcontra
        subst hcontra
        have := List.inj_on_of_nodup_map hv (assocFind_mem hce) (assocFind_mem hce2) rfl
        exact hne (congrArg Prod.fst this).symm
      simp only
      rw [List.getElem?_set_ne hij]
    | none =>
      have hj : j < c.comps.length := hr _ (assocFind_mem hce2)
      simp only
      rw [List.getElem?_append_left hj]

theorem add_component_eq_addPure {c : Comptainer α} (hinv : Inv c) (e : Entity) (v : α) :
    ∃ r, c.add_component e v = .ok (r, addPure c e v) := by
  obtain ⟨hk, hv, hr, hd⟩ := hinv
  unfold Comptainer.add_component addPure
  cases hce : c.lookup e with
  | some i =>
    have hi : i < c.comps.length := hr _ (assocFind_mem hce)
    refine ⟨some (c.comps.get ⟨i, hi⟩), ?_⟩
    simp [List.getElem?_eq_getElem hi]
  | none => exact ⟨none, rfl⟩

theorem addFoldFrom_inv {entries : List (Nat × α)} {c : Comptainer α} (hinv : Inv c) :
    Inv (addFoldFrom entries c) := by
  induction entries generalizing c with
  | nil => exact hinv
  | cons p rest ih => exact ih (addPure_inv hinv _ _)

theorem visit_map_eq_addFoldFrom {entries : List (Nat × α)} {c : Comptainer α}
    (hinv : Inv c) (hnz : ∀ p ∈ entries, p.1 ≠ 0) :
    visit_map entries c = .ok (addFoldFrom entries c) := by
  induction entries generalizing c with
  | nil => rfl
  | cons p rest ih =>
    obtain ⟨k, v⟩ := p
    have hknz : k ≠ 0 := hnz (k, v) (List.mem_cons_self _ _)
    rw [visit_map, addFoldFrom, entityFromU64, if_neg hknz]
    obtain ⟨r, hadd⟩ := add_component_eq_addPure hinv (⟨k⟩ : Entity) v
    simp only [hadd]
    exact ih (addPure_inv hinv _ _) (fun q hq => hnz q (List.mem_cons_of_mem _ hq))

theorem visit_map_zero_error {entries : List (Nat × α)} {c : Comptainer α}
    (hinv : Inv c) (hz : ∃ p ∈ entries, p.1 = 0) :
    visit_map entries c = .error (.inl .invalidEntityId) := by
  induction entries generalizing c with
  | nil =>
    obtain ⟨p, hp, _⟩ := hz
    cases hp
  | cons p rest ih =>
    obtain ⟨k, v⟩ := p
    by_cases hk : k = 0
    · rw [visit_map, entityFromU64, if_pos hk]
    · have hz' : ∃ q ∈ rest, q.1 = 0 := by
        obtain ⟨q, hq, hq0⟩ := hz
        rcases List.mem_cons.1 hq with h1 | h1
        · rw [h1] at hq0
          exact absurd hq0 hk
        · exact ⟨q, h1, hq0⟩
      rw [visit_map, entityFromU64, if_neg hk]
      obtain ⟨r, hadd⟩ := add_component_eq_addPure hinv (⟨k⟩ : Entity) v
      simp only [hadd]
      exact ih (addPure_inv hinv _ _) hz'

theorem addFoldFrom_get {entries : List (Nat × α)} {c : Comptainer α}
    (hinv : Inv c) (k : Nat) :
    (addFoldFrom entries c).get ⟨k⟩ =
      match lastVal k entries with
      | some v => .ok (some v)
      | none => c.get ⟨k⟩ := by
  induction entries generalizing c with
  | nil => rfl
  | cons p rest ih =>
    obtain ⟨k', v⟩ := p
    rw [addFoldFrom, ih (addPure_inv hinv _ _), lastVal]
    cases hlv : lastVal k rest with
    | some w => rfl
    | none =>
      by_cases hk : k' = k
      · rw [if_pos hk, hk]
        exact addPure_get_same hinv _ v
      · rw [if_neg hk]
        exact addPure_get_other hinv (fun hc => hk (congrArg Entity.id hc).symm) v

/-- C4: for every state satisfying the data-model invariants, removing the
entity at dense index `i` when `i` is not the last dense index leaves the
entity formerly mapped to the last dense index now mapped to `i`, with its
component value now stored at dense slot `i`; removing the entity at the
last dense index leaves every other entity's mapped index unchanged. -/
theorem remove_compaction_correct {c : Comptainer α} {e e' : Entity} {i : Nat}
    (hinv : Inv c)
    (he : c.lookup e = some i)
    (he' : c.lookup e' = some (c.comps.length - 1)) :
    (i + 1 < c.comps.length →
      ∃ c', c.remove_component e = .ok (true, c') ∧
        c'.lookup e' = some i ∧
        c'.comps[i]? = c.comps[c.comps.length - 1]?) ∧
    (i + 1 = c.comps.length →
      ∃ c', c.remove_component e = .ok (true, c') ∧
        ∀ e₂, e₂ ≠ e → c'.lookup e₂ = c.lookup e₂) := by
  obtain ⟨hk, hv, hr, hd⟩ := hinv
  have hi : i < c.comps.length := hr _ (assocFind_mem he)
  have hcne : c.comps ≠ [] := by
    intro h0
    rw [h0] at hi
    simp at hi
  have hlen : (vecSwapRemove c.comps i).length = c.comps.length - 1 :=
    vecSwapRemove_length hcne i
  constructor
  · intro hlt
    obtain ⟨l', hfix, hfst, hfind, hframe⟩ :=
      fixup_spec (assocFind_mem he') hk hv
    refine ⟨⟨l', vecSwapRemove c.comps i⟩, ?_, hfind, vecSwapRemove_getElem_self hlt⟩
    unfold Comptainer.remove_component
    simp only [he, hlen, if_pos hi, if_pos (show i < c.comps.length - 1 by omega), hfix]
  · intro heq
    refine ⟨⟨c.id_to_pos, vecSwapRemove c.comps i⟩, ?_, fun e₂ _ => rfl⟩
    unfold Comptainer.remove_component
    simp only [he, hlen, if_pos hi, if_neg (show ¬ i < c.comps.length - 1 by omega)]

/-- C4 witness: on the sparse set holding entities 1, 2, 3 at dense indices
0, 1, 2 with values 10, 20, 30, removing entity 2 (dense index 1) remaps
entity 3 to index 1 with its value 30 stored there. -/
theorem remove_compaction_correct_witness :
    Inv (⟨[(⟨1⟩, 0), (⟨2⟩, 1), (⟨3⟩, 2)], [10, 20, 30]⟩ : Comptainer Nat) ∧
    (⟨[(⟨1⟩, 0), (⟨2⟩, 1), (⟨3⟩, 2)], [10, 20, 30]⟩ : Comptainer Nat).lookup ⟨2⟩ = some 1 ∧
    (⟨[(⟨1⟩, 0), (⟨2⟩, 1), (⟨3⟩, 2)], [10, 20, 30]⟩ : Comptainer Nat).lookup ⟨3⟩ = some 2 ∧
    ((1 + 1 < 3 →
      ∃ c', (⟨[(⟨1⟩, 0), (⟨2⟩, 1), (⟨3⟩, 2)], [10, 20, 30]⟩ : Comptainer Nat).remove_component
            ⟨2⟩ = .ok (true, c') ∧
        c'.lookup ⟨3⟩ = some 1 ∧
        c'.comps[1]? = ([10, 20, 30] : List Nat)[2]?) ∧
     (1 + 1 = 3 →
      ∃ c', (⟨[(⟨1⟩, 0), (⟨2⟩, 1), (⟨3⟩, 2)], [10, 20, 30]⟩ : Comptainer Nat).remove_component
            ⟨2⟩ = .ok (true, c') ∧
        ∀ e₂, e₂ ≠ (⟨2⟩ : Entity) →
          c'.lookup e₂ =
            (⟨[(⟨1⟩, 0), (⟨2⟩, 1), (⟨3⟩, 2)], [10, 20, 30]⟩ : Comptainer Nat).lookup e₂)) := by
  have hinv : Inv (⟨[(⟨1⟩, 0), (⟨2⟩, 1), (⟨3⟩, 2)], [10, 20, 30]⟩ : Comptainer Nat) := by
    unfold Inv KeysNodup ValsNodup InRange Dense
    decide
  exact ⟨hinv, by decide, by decide,
    remove_compaction_correct hinv (by decide) (by decide)⟩

/-- C5: for every state satisfying the data-model invariants, when entity
`e` already holds `v1`, `add_component(e, v)` returns `Some v1`, leaves
`get(e)` equal to `v`, and leaves the set size unchanged; when `e` is
absent, it records `e ↦ current dense length`, appends `v` at that dense
slot, and returns `None`. -/
theorem add_replace_semantics {c : Comptainer α} {e : Entity} (v v1 : α) {i : Nat}
    (_hinv : Inv c) :
    (c.lookup e = some i → c.comps[i]? = some v1 →
      ∃ c', c.add_component e v = .ok (some v1, c') ∧
        c'.get e = .ok (some v) ∧ c'.clen = c.clen) ∧
    (c.lookup e = none →
      ∃ c', c.add_component e v = .ok (none, c') ∧
        c'.lookup e = some c.comps.length ∧
        c'.comps[c.comps.length]? = some v) := by
  constructor
  · intro hsome hv1
    have hi : i < c.comps.length := (List.getElem?_eq_some_iff.1 hv1).1
    refine ⟨⟨c.id_to_pos, c.comps.set i v⟩, ?_, ?_, rfl⟩
    · simp [Comptainer.add_component, hsome, hv1]
    · have hfind : assocFind e c.id_to_pos = some i := hsome
      simp [Comptainer.get, Comptainer.lookup, hfind, List.getElem?_set_self hi]
  · intro hnone
    have hfind : assocFind e c.id_to_pos = none := hnone
    refine ⟨⟨c.id_to_pos ++ [(e, c.comps.length)], c.comps ++ [v]⟩, ?_, ?_, ?_⟩
    · simp [Comptainer.add_component, hnone]
    · exact assocFind_append_self hfind
    · exact List.getElem?_concat_length _ _

/-- C5 witness: on the sparse set holding entity 1 at index 0 with value
10, replacing entity 1's value with 99 returns the old 10 and leaves size
1; adding absent entity 2 maps it to dense slot 1 holding its value. -/
theorem add_replace_semantics_witness :
    Inv (⟨[(⟨1⟩, 0)], [10]⟩ : Comptainer Nat) ∧
    ((⟨[(⟨1⟩, 0)], [10]⟩ : Comptainer Nat).lookup ⟨1⟩ = some 0 →
      ([10] : List Nat)[0]? = some 10 →
      ∃ c', (⟨[(⟨1⟩, 0)], [10]⟩ : Comptainer Nat).add_component ⟨1⟩ 99 = .ok (some 10, c') ∧
        c'.get ⟨1⟩ = .ok (some 99) ∧
        c'.clen = (⟨[(⟨1⟩, 0)], [10]⟩ : Comptainer Nat).clen) ∧
    ((⟨[(⟨1⟩, 0)], [10]⟩ : Comptainer Nat).lookup ⟨2⟩ = none →
      ∃ c', (⟨[(⟨1⟩, 0)], [10]⟩ : Comptainer Nat).add_component ⟨2⟩ 20 = .ok (none, c') ∧
        c'.lookup ⟨2⟩ = some 1 ∧
        c'.comps[1]? = some 20) := by
  have hinv : Inv (⟨[(⟨1⟩, 0)], [10]⟩ : Comptainer Nat) := by
    unfold Inv KeysNodup ValsNodup InRange Dense
    decide
  exact ⟨hinv, (add_replace_semantics (i := 0) 99 10 hinv).1,
    (add_replace_semantics (i := 0) 20 20 hinv).2⟩

/-- C10 (amended): for every state satisfying the data-model invariants,
`add_component(e1, v)` keeps every other present entity `e2 ≠ e1` at its
previous mapped dense index with its previous stored value, and an add of
an absent entity only appends at the end of the dense vector. -/
theorem add_component_frame {c : Comptainer α} {e1 e2 : Entity} (v : α) {j : Nat}
    (hinv : Inv c) (hne : e2 ≠ e1) (h2 : c.lookup e2 = some j) :
    ∃ r c', c.add_component e1 v = .ok (r, c') ∧
      c'.lookup e2 = some j ∧
      c'.comps[j]? = c.comps[j]? ∧
      (c.lookup e1 = none → c'.comps = c.comps ++ [v]) := by
  obtain ⟨hk, hv, hr, hd⟩ := hinv
  have hj : j < c.comps.length := hr _ (assocFind_mem h2)
  by_cases hnone : c.lookup e1 = none
  · refine ⟨none, ⟨c.id_to_pos ++ [(e1, c.comps.length)], c.comps ++ [v]⟩, ?_, ?_, ?_,
      fun _ => rfl⟩
    · simp [Comptainer.add_component, hnone]
    · exact (assocFind_append_other hne).trans h2
    · exact List.getElem?_append_left hj
  · obtain ⟨i, hce⟩ := Option.ne_none_iff_exists'.1 hnone
    have hi : i < c.comps.length := hr _ (assocFind_mem hce)
    have hij : i ≠ j := by
      intro hcontra
      subst hcontra
      have := List.inj_on_of_nodup_map hv (assocFind_mem hce) (assocFind_mem h2) rfl
      exact hne (congrArg Prod.fst this).symm
    refine ⟨some (c.comps.get ⟨i, hi⟩), ⟨c.id_to_pos, c.comps.set i v⟩, ?_, h2, ?_, ?_⟩
    · simp [Comptainer.add_component, hce, List.getElem?_eq_getElem hi]
    · exact List.getElem?_set_ne hij
    · intro hcontra
      rw [hcontra] at hce
      cases hce

/-- C10 witness: on the sparse set holding entities 1, 2 at indices 0, 1
with values 10, 20, adding a value for entity 1 leaves entity 2 mapped to
index 1 with value 20. -/
theorem add_component_frame_witness :
    Inv (⟨[(⟨1⟩, 0), (⟨2⟩, 1)], [10, 20]⟩ : Comptainer Nat) ∧
    (⟨2⟩ : Entity) ≠ ⟨1⟩ ∧
    (⟨[(⟨1⟩, 0), (⟨2⟩, 1)], [10, 20]⟩ : Comptainer Nat).lookup ⟨2⟩ = some 1 ∧
    ∃ r c', (⟨[(⟨1⟩, 0), (⟨2⟩, 1)], [10, 20]⟩ : Comptainer Nat).add_component ⟨1⟩ 99 =
        .ok (r, c') ∧
      c'.lookup ⟨2⟩ = some 1 ∧
      c'.comps[1]? = ([10, 20] : List Nat)[1]? ∧
      ((⟨[(⟨1⟩, 0), (⟨2⟩, 1)], [10, 20]⟩ : Comptainer Nat).lookup ⟨1⟩ = none →
        c'.comps = [10, 20] ++ [99]) := by
  have hinv : Inv (⟨[(⟨1⟩, 0), (⟨2⟩, 1)], [10, 20]⟩ : Comptainer Nat) := by
    unfold Inv KeysNodup ValsNodup InRange Dense
    decide
  exact ⟨hinv, by decide, by decide, add_component_frame 99 hinv (by decide) (by decide)⟩

/-- C9: deserialization of a finite entry sequence produces exactly the
container obtained by folding `add_component` over an empty container in
input order (so a key appearing twice ends up holding the later value),
and a zero entity id in the input is rejected with a deserialization
error. -/
theorem deserialize_rebuilds_by_add (entries : List (Nat × α)) :
    ((∀ p ∈ entries, p.1 ≠ 0) →
      deserializeComptainer entries = .ok (addFold entries) ∧
      ∀ k : Nat, (addFold entries).get ⟨k⟩ =
        match lastVal k entries with
        | some v => .ok (some v)
        | none => .ok none) ∧
    ((∃ p ∈ entries, p.1 = 0) →
      deserializeComptainer entries = .error (.inl .invalidEntityId)) := by
  constructor
  · intro hnz
    refine ⟨visit_map_eq_addFoldFrom empty_inv hnz, fun k => ?_⟩
    rw [addFold, addFoldFrom_get empty_inv k]
    cases lastVal k entries with
    | some w => rfl
    | none => rfl
  · exact visit_map_zero_error empty_inv

/-- C9 witness: the entry list `[(1, 10), (2, 20), (1, 30)]` deserializes
to the fold of `add_component`, in which key 1 holds the later value 30;
and the entry list `[(1, 10), (0, 20)]` is rejected. -/
theorem deserialize_rebuilds_by_add_witness :
    (deserializeComptainer (α := Nat) [(1, 10), (2, 20), (1, 30)] =
        .ok (addFold [(1, 10), (2, 20), (1, 30)]) ∧
      (addFold (α := Nat) [(1, 10), (2, 20), (1, 30)]).get ⟨1⟩ = .ok (some 30)) ∧
    deserializeComptainer (α := Nat) [(1, 10), (0, 20)] =
      .error (.inl .invalidEntityId) := by
  have h1 := deserialize_rebuilds_by_add (α := Nat) [(1, 10), (2, 20), (1, 30)]
  have h2 := deserialize_rebuilds_by_add (α := Nat) [(1, 10), (0, 20)]
  refine ⟨⟨(h1.1 (by decide)).1, ?_⟩, h2.2 ⟨(0, 20), by decide, rfl⟩⟩
  exact (h1.1 (by decide)).2 1

theorem grow_data_isSome (c : CompData α) (ok : Bool) : ((c.grow ok).data).isSome := by
  unfold CompData.grow
  cases hd : c.data with
  | none => rfl
  | some buf =>
    cases ok with
    | true => rfl
    | false => simp [hd]

/-- C7: a column for a zero-size element type never allocates at creation
or on any push, reports its capacity as unbounded (`usize::MAX`), and each
push increments `len` by exactly 1 while each in-bounds `swap_remove`
decrements it by exactly 1, with no other state change. -/
theorem zst_no_alloc {c : CompData α} (t : RustType) (n : Nat) (v : α) (i : Nat)
    (ok : Bool) (hz : t.size = 0) (htag : c.elem_type = t.tag) (hsz : c.elem_size = 0) :
    CompData.with_capacity α t n = ⟨none, 0, USIZE_MAX, t.tag, 0, 0, false, false⟩ ∧
    c.push t v ok = .ok { c with len := c.len + 1 } ∧
    (i < c.len → c.swap_remove i = .ok { c with len := c.len - 1 }) := by
  refine ⟨?_, ?_, ?_⟩
  · unfold CompData.with_capacity
    rw [if_pos hz, hz]
  · unfold CompData.push
    rw [if_neg (not_not_intro htag), if_neg (by rw [hz]; exact lt_irrefl 0)]
  · intro hi
    unfold CompData.swap_remove
    rw [if_neg (Nat.not_le.2 hi), if_neg (by rw [hsz]; exact lt_irrefl 0)]

/-- C7 witness: a zero-size column with three live elements; creating with
capacity 5 allocates nothing and reports unbounded capacity, a push moves
`len` to 4 and a removal moves it back to 2, changing nothing else. -/
theorem zst_no_alloc_witness :
    (⟨7, 0⟩ : RustType).size = 0 ∧
    (⟨none, 3, USIZE_MAX, 7, 0, 0, false, false⟩ : CompData Nat).elem_type =
      (⟨7, 0⟩ : RustType).tag ∧
    (⟨none, 3, USIZE_MAX, 7, 0, 0, false, false⟩ : CompData Nat).elem_size = 0 ∧
    (CompData.with_capacity Nat ⟨7, 0⟩ 5 = ⟨none, 0, USIZE_MAX, 7, 0, 0, false, false⟩ ∧
      (⟨none, 3, USIZE_MAX, 7, 0, 0, false, false⟩ : CompData Nat).push ⟨7, 0⟩ 42 true =
        .ok ⟨none, 4, USIZE_MAX, 7, 0, 0, false, false⟩ ∧
      (0 < 3 →
        (⟨none, 3, USIZE_MAX, 7, 0, 0, false, false⟩ : CompData Nat).swap_remove 0 =
          .ok ⟨none, 2, USIZE_MAX, 7, 0, 0, false, false⟩)) :=
  ⟨rfl, rfl, rfl, zst_no_alloc ⟨7, 0⟩ 5 42 0 true rfl rfl rfl⟩

/-- C8: every typed operation (`push`, `replace`, `as_typed_slice`,
`as_typed_slice_mut`) faults on a type-tag mismatch, `replace` and
`swap_remove` fault on an index at or past `len`, and under the
preconditions (matching type, in-bounds index) on a well-formed column no
such fault branch is reached. -/
theorem comp_data_assert_discipline {c : CompData α} (t : RustType) (v : α) (i : Nat)
    (ok : Bool) (hsize : c.elem_size = t.size) (hwf : WFData c) :
    (c.elem_type ≠ t.tag →
      c.push t v ok = .error .assertFailed ∧
      c.replace t i v = .error .assertFailed ∧
      c.as_typed_slice t = .error .assertFailed ∧
      c.as_typed_slice_mut t = .error .assertFailed) ∧
    (c.len ≤ i →
      c.replace t i v = .error .assertFailed ∧
      c.swap_remove i = .error .assertFailed) ∧
    (c.elem_type = t.tag →
      (∃ c', c.push t v ok = .ok c') ∧
      (i < c.len → ∃ r, c.replace t i v = .ok r) ∧
      (∃ s, c.as_typed_slice t = .ok s) ∧
      (∃ s, c.as_typed_slice_mut t = .ok s)) ∧
    (i < c.len → ∃ c', c.swap_remove i = .ok c') := by
  refine ⟨?_, ?_, ?_, ?_⟩
  · intro hmm
    refine ⟨?_, ?_, ?_, ?_⟩
    · unfold CompData.push
      rw [if_pos hmm]
    · unfold CompData.replace
      rw [if_pos hmm]
    · unfold CompData.as_typed_slice
      rw [if_pos hmm]
    · unfold CompData.as_typed_slice_mut
      rw [if_pos hmm]
  · intro hle
    constructor
    · unfold CompData.replace
      by_cases hmm : c.elem_type ≠ t.tag
      · rw [if_pos hmm]
      · rw [if_neg hmm, if_pos hle]
    · unfold CompData.swap_remove
      rw [if_pos hle]
  · intro htag
    refine ⟨?_, ?_, ?_, ?_⟩
    · unfold CompData.push
      rw [if_neg (not_not_intro htag)]
      by_cases hts : 0 < t.size
      · rw [if_pos hts]
        have hsome : ((if c.data.isNone || (c.len == c.cap) then c.grow ok else c).data).isSome := by
          by_cases hcond : (c.data.isNone || (c.len == c.cap)) = true
          · rw [if_pos hcond]
            exact grow_data_isSome c ok
          · rw [if_neg hcond]
            cases hd : c.data with
            | none => exact absurd (by simp [hd]) hcond
            | some buf => rfl
        obtain ⟨buf, hbuf⟩ := Option.isSome_iff_exists.1 hsome
        simp only [hbuf]
        by_cases hdang : (if c.data.isNone || (c.len == c.cap) then c.grow ok else c).dangling = true
        · rw [if_pos hdang]
          exact ⟨_, rfl⟩
        · rw [if_neg hdang]
          by_cases hlt :
              (if c.data.isNone || (c.len == c.cap) then c.grow ok else c).len < buf.length
          · rw [if_pos hlt]
            exact ⟨_, rfl⟩
          · rw [if_neg hlt]
            exact ⟨_, rfl⟩
      · rw [if_neg hts]
        exact ⟨_, rfl⟩
    · intro hi
      unfold CompData.replace
      rw [if_neg (not_not_intro htag), if_neg (Nat.not_le.2 hi)]
      by_cases hts : 0 < t.size
      · rw [if_pos hts]
        cases hd : c.data with
        | none =>
          have : c.len = 0 := hwf (hsize ▸ hts) hd
          omega
        | some buf =>
          simp only [hd]
          exact ⟨_, rfl⟩
      · rw [if_neg hts]
        exact ⟨_, rfl⟩
    · unfold CompData.as_typed_slice
      rw [if_neg (not_not_intro htag)]
      cases hd : c.data with
      | none => exact ⟨List.replicate c.len none, rfl⟩
      | some buf => exact ⟨buf.take c.len, rfl⟩
    · unfold CompData.as_typed_slice_mut
      rw [if_neg (not_not_intro htag)]
      cases hd : c.data with
      | none => exact ⟨List.replicate c.len none, rfl⟩
      | some buf => exact ⟨buf.take c.len, rfl⟩
  · intro hi
    unfold CompData.swap_remove
    rw [if_neg (Nat.not_le.2 hi)]
    by_cases hes : 0 < c.elem_size
    · rw [if_pos hes]
      cases hd : c.data with
      | none =>
        have : c.len = 0 := hwf hes hd
        omega
      | some buf =>
        simp only [hd]
        by_cases hlt : i < c.len - 1
        · rw [if_pos hlt]
          exact ⟨_, rfl⟩
        · rw [if_neg hlt]
          exact ⟨_, rfl⟩
    · rw [if_neg hes]
      exact ⟨_, rfl⟩

/-- C8 witness: a well-formed one-element column of 4-byte values with tag
5; pushing or replacing through the wrong tag 6 faults, an out-of-bounds
replace faults, and the type-correct in-bounds operations all succeed. -/
theorem comp_data_assert_discipline_witness :
    WFData (⟨some [some 10], 1, 1, 5, 4, 1, false, false⟩ : CompData Nat) ∧
    (⟨some [some 10], 1, 1, 5, 4, 1, false, false⟩ : CompData Nat).push ⟨6, 4⟩ 7 true =
      .error .assertFailed ∧
    (⟨some [some 10], 1, 1, 5, 4, 1, false, false⟩ : CompData Nat).replace ⟨5, 4⟩ 1 7 =
      .error .assertFailed ∧
    (∃ c', (⟨some [some 10], 1, 1, 5, 4, 1, false, false⟩ : CompData Nat).push ⟨5, 4⟩ 7 true =
      .ok c') ∧
    (∃ r, (⟨some [some 10], 1, 1, 5, 4, 1, false, false⟩ : CompData Nat).replace ⟨5, 4⟩ 0 7 =
      .ok r) ∧
    (∃ c', (⟨some [some 10], 1, 1, 5, 4, 1, false, false⟩ : CompData Nat).swap_remove 0 =
      .ok c') := by
  have hwf : WFData (⟨some [some 10], 1, 1, 5, 4, 1, false, false⟩ : CompData Nat) := by
    unfold WFData
    intro _ h
    cases h
  have hgood := comp_data_assert_discipline
    (c := (⟨some [some 10], 1, 1, 5, 4, 1, false, false⟩ : CompData Nat)) ⟨5, 4⟩ 7 0 true rfl hwf
  have hoob := comp_data_assert_discipline
    (c := (⟨some [some 10], 1, 1, 5, 4, 1, false, false⟩ : CompData Nat)) ⟨5, 4⟩ 7 1 true rfl hwf
  have hbad := comp_data_assert_discipline
    (c := (⟨some [some 10], 1, 1, 5, 4, 1, false, false⟩ : CompData Nat)) ⟨6, 4⟩ 7 1 true rfl hwf
  exact ⟨hwf, (hbad.1 (by decide)).1, (hoob.2.1 (by decide)).1,
    (hgood.2.2.1 rfl).1, (hgood.2.2.1 rfl).2.1 (by decide), hgood.2.2.2 (by decide)⟩

end Hydrolox
